import Mathlib

/-!
Verification of the icon/label resolution engine of the adb-Dummy-app
launcher (src/main.js) against its natural-language specification.

JavaScript strings are modeled as lists of code units (`List Nat`); for the
ASCII data handled by the engine a code unit is the character's code point.
Asynchronous subprocess / file-system steps are modeled by passing their
results explicitly (oracle functions), keeping the control flow of the
source intact.
-/

/-- Code units of a string literal, for writing concrete inputs. -/
def String.units (s : String) : List Nat :=
  s.data.map Char.toNat

/-- JavaScript `String.prototype.toLowerCase` on an ASCII code unit. -/
def jsLower (c : Nat) : Nat :=
  if 65 ≤ c ∧ c ≤ 90 then c + 32 else c

/-- Lowercasing of a whole string (`.toLowerCase()`). -/
def lowerN (l : List Nat) : List Nat :=
  l.map jsLower

/-- Whitespace as removed by JavaScript `String.prototype.trim`. -/
def isWS (c : Nat) : Bool :=
  c = 9 ∨ c = 10 ∨ c = 11 ∨ c = 12 ∨ c = 13 ∨ c = 32 ∨ c = 160

/-- JavaScript `String.prototype.trim`: drop whitespace at both ends. -/
def trimN (l : List Nat) : List Nat :=
  ((l.dropWhile isWS).reverse.dropWhile isWS).reverse

/-- Decimal digit (regex `\d`). -/
def isDigitN (c : Nat) : Bool :=
  48 ≤ c ∧ c ≤ 57

/-- Hex digit as accepted by the color regex character class `[0-9a-f]` with
the `i` flag. -/
def isHexDigitN (c : Nat) : Bool :=
  (48 ≤ c ∧ c ≤ 57) ∨ (97 ≤ c ∧ c ≤ 102) ∨ (65 ≤ c ∧ c ≤ 70)

/-- Lower-case hex digit. -/
def isLowerHexN (c : Nat) : Bool :=
  (48 ≤ c ∧ c ≤ 57) ∨ (97 ≤ c ∧ c ≤ 102)

/-- Numeric value of one hex digit (as used by `Number.parseInt(s, 16)`). -/
def hexValN (c : Nat) : Nat :=
  if 48 ≤ c ∧ c ≤ 57 then c - 48
  else if 97 ≤ c ∧ c ≤ 102 then c - 87
  else if 65 ≤ c ∧ c ≤ 70 then c - 55
  else 0

/-- Model of `Number.parseInt(s, 16)` on a string of hex digits. -/
def parseHexN (l : List Nat) : Nat :=
  l.foldl (fun a c => a * 16 + hexValN c) 0

/-- Model of `Number.parseInt(s, 10)` on a string of decimal digits. -/
def parseDecN (l : List Nat) : Nat :=
  l.foldl (fun a c => a * 10 + (c - 48)) 0

/-- Truthiness of a JavaScript string-or-undefined value: present and
non-empty. -/
def jsTruthy (o : Option (List Nat)) : Bool :=
  match o with
  | some l => l ≠ []
  | none => false

/-- Keep a string-or-undefined value only when truthy (models `a || b`
chains). -/
def truthyStr (o : Option (List Nat)) : Option (List Nat) :=
  match o with
  | some l => if l = [] then none else some l
  | none => none

/-- Association-list lookup, modeling JavaScript object / `Map` access. -/
def lookupA {β : Type} (k : List Nat) : List (List Nat × β) → Option β
  | [] => none
  | (k', v) :: rest => if k' = k then some v else lookupA k rest

/-- Association-list update, modeling `map.set` / object spread update. -/
def setA {β : Type} (m : List (List Nat × β)) (k : List Nat) (v : β) :
    List (List Nat × β) :=
  match m with
  | [] => [(k, v)]
  | (k', v') :: rest => if k' = k then (k, v) :: rest else (k', v') :: setA rest k v

/-- Embedding of `src/main.js` `isColorValue` (lines 775-779): the trimmed value must
match `^#(?:[0-9a-f]{3}|[0-9a-f]{4}|[0-9a-f]{6}|[0-9a-f]{8})$/i`. -/
def isColorValue (value : List Nat) : Bool :=
  if value = [] then false
  else
    match trimN value with
    | 35 :: rest =>
        ((rest.length = 3 ∧ rest.all isHexDigitN)
          ∨ (rest.length = 4 ∧ rest.all isHexDigitN)
          ∨ (rest.length = 6 ∧ rest.all isHexDigitN)
          ∨ (rest.length = 8 ∧ rest.all isHexDigitN))
    | _ => false

/-- Embedding of `src/main.js` `normalizeHexColor` (781-792): trims, strips the `#`,
lowercases, doubles each digit of 3- and 4-digit shorthands. -/
def normalizeHexColor (value : List Nat) : Option (List Nat) :=
  if ¬isColorValue value then none
  else
    let trimmed := lowerN ((trimN value).drop 1)
    if trimmed.length = 3 then
      some (35 :: trimmed.flatMap (fun ch => [ch, ch]))
    else if trimmed.length = 4 then
      some (35 :: trimmed.flatMap (fun ch => [ch, ch]))
    else some (35 :: trimmed)

/-- RGBA quadruple produced by `colorStringToRgba`. -/
structure Rgba where
  r : Nat
  g : Nat
  b : Nat
  a : Nat
deriving DecidableEq

/-- Embedding of `src/main.js` `colorStringToRgba` (794-811): 8-digit colors carry the
alpha channel in the two leading digits, then r, g, b. -/
def colorStringToRgba (color : List Nat) : Option Rgba :=
  if color = [] then none
  else
    match normalizeHexColor color with
    | none => none
    | some normalized =>
        let hex := normalized.drop 1
        if hex.length = 8 then
          let alpha := parseHexN (hex.take 2)
          let rest := hex.drop 2
          some ⟨parseHexN (rest.take 2), parseHexN ((rest.drop 2).take 2),
            parseHexN ((rest.drop 4).take 2), alpha⟩
        else if hex.length = 6 then
          some ⟨parseHexN (hex.take 2), parseHexN ((hex.drop 2).take 2),
            parseHexN ((hex.drop 4).take 2), 255⟩
        else none

example : isColorValue ("#a1B2c3".units) = true := by decide
example : isColorValue (" #fff ".units) = true := by decide
example : isColorValue ("#12345".units) = false := by decide
example : normalizeHexColor ("#AbC".units) = some ("#aabbcc".units) := by decide
example : colorStringToRgba ("#11223344".units) = some ⟨34, 51, 68, 17⟩ := by decide
example : colorStringToRgba ("#102030".units) = some ⟨16, 32, 48, 255⟩ := by decide

/-- Word-or-dot character, regex class `[\w.]`. -/
def isWordDot (c : Nat) : Bool :=
  isDigitN c ∨ (97 ≤ c ∧ c ≤ 122) ∨ (65 ≤ c ∧ c ≤ 90) ∨ c = 95 ∨ c = 46

/-- Case-insensitive prefix test (regex literal with the `i` flag). -/
def ciStarts (needle hay : List Nat) : Bool :=
  lowerN (hay.take needle.length) = lowerN needle

/-- Regex `^0x[0-9a-f]+$/i`. -/
def isHexIdN (l : List Nat) : Bool :=
  match l with
  | c0 :: c1 :: rest => c0 = 48 ∧ (c1 = 120 ∨ c1 = 88) ∧ rest ≠ [] ∧ rest.all isHexDigitN
  | _ => false

/-- JavaScript `String.prototype.split` on a one-character separator. -/
def splitOnN (sep : Nat) : List Nat → List (List Nat)
  | [] => [[]]
  | c :: rest =>
      let r := splitOnN sep rest
      if c = sep then [] :: r
      else
        match r with
        | [] => [[c]]
        | h :: t => (c :: h) :: t

/-- Model of `name.replace(/^@/, '')`: strip one leading `@`. -/
def stripAt (l : List Nat) : List Nat :=
  match l with
  | 64 :: rest => rest
  | _ => l

/-- Parsed resource reference produced by `parseResourceValue`
(`src/main.js` 220-250). Exactly the fields the source object may carry. -/
structure ParsedResource where
  raw : List Nat
  resourceId : Option (List Nat) := none
  type : Option (List Nat) := none
  name : Option (List Nat) := none
  android : Bool := false
  color : Option (List Nat) := none
  path : Option (List Nat) := none
deriving DecidableEq

/-- The `@`-branch of `parseResourceValue`: numeric id, `android:`-namespaced
`type/name`, or plain `type/name`. -/
def parseAtValue (value withoutAt : List Nat) : ParsedResource :=
  if isHexIdN withoutAt then { raw := value, resourceId := some (lowerN withoutAt) }
  else
    let generic : ParsedResource :=
      match splitOnN 47 withoutAt with
      | [t, n] => { raw := value, type := some t, name := some n }
      | _ => { raw := value }
    let wordAfter : Bool :=
      match (withoutAt.drop 8).head? with
      | some c => isWordDot c
      | none => false
    if ciStarts ("android:".units) withoutAt && wordAfter then
      match splitOnN 47 (withoutAt.drop 8) with
      | [t, n] => { raw := value, type := some t, name := some n, android := true }
      | _ => generic
    else generic

/-- Embedding of `src/main.js` `parseResourceValue` (220-250). -/
def parseResourceValue (rawValue : List Nat) : Option ParsedResource :=
  if rawValue = [] then none
  else
    let value := trimN rawValue
    if value = [] then none
    else
      match value with
      | 64 :: withoutAt => some (parseAtValue value withoutAt)
      | _ =>
          if isColorValue value then some { raw := value, color := normalizeHexColor value }
          else some { raw := value, path := some value }

/-- Embedding of `src/main.js` `DENSITY_QUALIFIER_SCORES` (576-587). -/
def DENSITY_QUALIFIER_SCORES : List (List Nat × Nat) :=
  [("xxxhdpi".units, 800), ("xxhdpi".units, 700), ("xhdpi".units, 600),
   ("tvdpi".units, 550), ("hdpi".units, 500), ("nodpi".units, 480),
   ("anydpi".units, 300), ("mdpi".units, 250), ("ldpi".units, 200),
   ("sdpi".units, 180)]

/-- Regex `^(\d+)dpi$` over a qualifier. -/
def ndpiValue (q : List Nat) : Option Nat :=
  let ds := q.takeWhile isDigitN
  if ds ≠ [] ∧ q.drop ds.length = "dpi".units then some (parseDecN ds) else none

/-- Split a string around its last `-` that still has a non-empty suffix
after it: returns the part before that dash and the part after it. -/
def lastValidDash : List Nat → Option (List Nat × List Nat)
  | [] => none
  | c :: rest =>
      match lastValidDash rest with
      | some (b, a) => some (c :: b, a)
      | none => if c = 45 ∧ rest ≠ [] then some ([], rest) else none

/-- Capture group of `^res\/[^/]+-([^/]+)\//i` within the first directory
segment `seg`: the backtracking greedy first group makes the match split at
the last `-` of `seg` that has a non-empty suffix after it, and the part
before that dash must also be non-empty. -/
def densitySegCapture (seg : List Nat) : Option (List Nat) :=
  match lastValidDash seg with
  | none => none
  | some (before, after) => if before = [] then none else some after

/-- Match of `^res\/[^/]+-([^/]+)\//i` against a whole entry path. -/
def densityQualifierCapture (entry : List Nat) : Option (List Nat) :=
  match entry with
  | r :: e :: s :: sl :: rest =>
      if jsLower r = 114 ∧ jsLower e = 101 ∧ jsLower s = 115 ∧ sl = 47 then
        let seg := rest.takeWhile (fun c => c ≠ 47)
        if (rest.drop seg.length).head? = some 47 then densitySegCapture seg
        else none
      else none
  | _ => none

/-- The qualifier loop of `getDensityScore`: fold the captured qualifier
group (split on `-`) through the score table / numeric-dpi fallback. -/
def densityFoldScore (cap : List Nat) : Nat :=
  (splitOnN 45 cap).foldl (fun best rawQualifier =>
    let qualifier := lowerN rawQualifier
    match lookupA qualifier DENSITY_QUALIFIER_SCORES with
    | some score => max best score
    | none =>
        match ndpiValue qualifier with
        | some numeric => max best numeric
        | none => best) 0

/-- Embedding of `src/main.js` `getDensityScore` (609-632). -/
def getDensityScore (entry : List Nat) : Nat :=
  if entry = [] then 0
  else
    match densityQualifierCapture entry with
    | none => 0
    | some cap => densityFoldScore cap

/-- Embedding of `src/main.js` `getFormatFromEntry` (563-574). -/
def getFormatFromEntry (entry : List Nat) : List Nat :=
  if entry = [] then []
  else
    let lower := lowerN entry
    if (".png".units).isSuffixOf lower then "png".units
    else if (".webp".units).isSuffixOf lower then "webp".units
    else if (".jpg".units).isSuffixOf lower then "jpg".units
    else if (".jpeg".units).isSuffixOf lower then "jpeg".units
    else if (".xml.flat".units).isSuffixOf lower then "xml.flat".units
    else if (".xml".units).isSuffixOf lower then "xml".units
    else if (".svg".units).isSuffixOf lower then "svg".units
    else []

/-- Embedding of `src/main.js` `normalizePreferredExtensions` (589-607). -/
def normalizePreferredExtensions (preferredExtensions : List (List Nat)) :
    List (List Nat) :=
  let defaults := [".png".units, ".webp".units, ".xml".units, ".xml.flat".units,
    ".jpg".units, ".jpeg".units]
  let provided := if preferredExtensions = [] then defaults else preferredExtensions
  (provided.map (fun ext =>
    if ext = [] then []
    else
      let normalized := lowerN ext
      let dotted := if normalized.head? = some 46 then normalized else 46 :: normalized
      if dotted = ".xmlflat".units then ".xml.flat".units else dotted)).filter
    (fun e => e ≠ [])

/-- Embedding of `src/main.js` `formatToExtension` (634-640). -/
def formatToExtension (format : List Nat) : List Nat :=
  if format = [] then []
  else if format = "xml.flat".units then ".xml.flat".units
  else 46 :: lowerN format

/-- Node `path.basename`: strip trailing slashes, then keep the last
component. -/
def jsBasename (p : List Nat) : List Nat :=
  let t := p.reverse.dropWhile (fun c => c = 47)
  (t.takeWhile (fun c => c ≠ 47)).reverse

/-- The `extensionPriority` map of `findResourceEntry`: each extension maps
to `extensions.length - index` (later duplicates overwrite). -/
def extensionPriorityMap (extensions : List (List Nat)) : List (List Nat × Nat) :=
  extensions.enum.foldl (fun m p => setA m p.2 (extensions.length - p.1)) []

/-- One candidate of the `matches` array built by `findResourceEntry`. -/
structure MatchEntry where
  entry : List Nat
  extension : List Nat
  densityScore : Nat
  priority : Nat
deriving DecidableEq

/-- Lexicographic order on code-unit lists, modeling
`String.prototype.localeCompare` on ASCII entry paths. -/
def lexLeN : List Nat → List Nat → Bool
  | [], _ => true
  | _ :: _, [] => false
  | a :: as, b :: bs => if a < b then true else if b < a then false else lexLeN as bs

/-- The sort comparator of `findResourceEntry` (699-707) as a `≤` test:
`matchLe a b` holds when the comparator orders `a` not after `b`. -/
def matchLe (a b : MatchEntry) : Bool :=
  if a.priority ≠ b.priority then decide (b.priority < a.priority)
  else if a.densityScore ≠ b.densityScore then decide (b.densityScore < a.densityScore)
  else lexLeN a.entry b.entry

/-- Candidate collection loop of `findResourceEntry` (672-693). -/
def collectMatches (entries : List (List Nat)) (rtype rname : List Nat)
    (extensions : List (List Nat)) : List MatchEntry :=
  let prioMap := extensionPriorityMap extensions
  let baseName := stripAt rname
  entries.filterMap (fun entry =>
    if ¬((("res/".units ++ rtype) ++ [45]).isPrefixOf entry
         ∨ (("res/".units ++ rtype) ++ [47]).isPrefixOf entry) then none
    else
      let format := getFormatFromEntry entry
      let extension := formatToExtension format
      match lookupA extension prioMap with
      | none => none
      | some prio =>
          let fileName := jsBasename entry
          let expected := if extension = ".xml.flat".units then
              baseName ++ ".xml.flat".units
            else baseName ++ extension
          if fileName ≠ expected then none
          else some ⟨entry, extension, getDensityScore entry, prio⟩)

/-- Relation form of `matchLe`, for the stable sort. -/
def matchRel : MatchEntry → MatchEntry → Prop := fun a b => matchLe a b = true

instance : DecidableRel matchRel := fun a b => inferInstanceAs (Decidable (matchLe a b = true))

/-- Embedding of `src/main.js` `findResourceEntry` (642-710). JavaScript `Array.sort` is
stable; it is embedded as the stable insertion sort. -/
def findResourceEntry (entries : List (List Nat)) (resource : ParsedResource)
    (preferredExtensions : List (List Nat)) : Option (List Nat) :=
  if entries = [] then none
  else
    let extensions := normalizePreferredExtensions preferredExtensions
    let pathResult : Option (List Nat) :=
      if jsTruthy resource.path then
        let normalized := (resource.path.getD []).dropWhile (fun c => c = 47)
        if entries.contains normalized then some normalized
        else entries.find? (fun e => (47 :: jsBasename normalized).isSuffixOf e)
      else none
    match pathResult with
    | some m => some m
    | none =>
        if ¬jsTruthy resource.type ∨ ¬jsTruthy resource.name then none
        else
          let ms := collectMatches entries (resource.type.getD [])
            (resource.name.getD []) extensions
          (List.insertionSort matchRel ms).head?.map MatchEntry.entry

/-- A pulled APK as the resolver sees it: its local path, the cached archive
entry listing (`getApkEntries`), and the cached resource table
(`getResourceTable`). -/
structure Apk where
  localPath : List Nat
  entries : List (List Nat)
  resourceTable : List (List Nat × (List Nat × List Nat))
deriving DecidableEq

/-- Embedding of `src/main.js` `resolveResourceId` (1028-1041). -/
def resolveResourceId (resourceId : List Nat) (apks : List Apk) :
    Option (List Nat × List Nat) :=
  if resourceId = [] then none
  else
    let normalized := lowerN (stripAt resourceId)
    if normalized = [] then none
    else apks.findSome? (fun apk => lookupA normalized apk.resourceTable)

/-- Resolved archive entry (`{ apkPath, entryPath, format }`). -/
structure ResolvedEntry where
  apkPath : List Nat
  entryPath : List Nat
  format : List Nat
deriving DecidableEq

/-- Embedding of `src/main.js` `resolveResourceReference` (712-740). -/
def resolveResourceReference (resource : ParsedResource) (apks : List Apk)
    (preferredExtensions : List (List Nat)) : Option ResolvedEntry :=
  let working :=
    if jsTruthy resource.resourceId ∧ ¬jsTruthy resource.type ∧ ¬jsTruthy resource.name then
      match resolveResourceId (resource.resourceId.getD []) apks with
      | some (t, n) => { resource with type := some t, name := some n }
      | none => resource
    else resource
  if working.android then none
  else
    apks.findSome? (fun apk =>
      (findResourceEntry apk.entries working preferredExtensions).map
        (fun m => ⟨apk.localPath, m, getFormatFromEntry m⟩))

example : getDensityScore ("res/drawable-xxhdpi/icon.png".units) = 700 := by decide
example : getDensityScore ("res/drawable-xhdpi-v4/icon.png".units) = 0 := by decide
example : getDensityScore ("res/drawable-440dpi/icon.png".units) = 440 := by decide
example : getDensityScore ("res/drawable/icon.png".units) = 0 := by decide
example : getDensityScore ("res/drawable-sdpi/a.png".units) = 180 := by decide
example :
    findResourceEntry
      ["res/drawable-mdpi/icon.png".units, "res/drawable-xxxhdpi/icon.xml".units]
      { raw := [], type := some ("drawable".units), name := some ("icon".units) }
      [".png".units, ".xml".units]
      = some ("res/drawable-mdpi/icon.png".units) := by decide
example :
    findResourceEntry
      ["res/drawable-hdpi/icon.png".units, "res/drawable-xxhdpi/icon.png".units,
       "res/drawable/icon.png".units]
      { raw := [], type := some ("drawable".units), name := some ("icon".units) }
      [".png".units, ".webp".units, ".jpg".units, ".jpeg".units]
      = some ("res/drawable-xxhdpi/icon.png".units) := by decide
example :
    parseResourceValue ("@android:color/white".units)
      = some { raw := "@android:color/white".units, type := some ("color".units),
               name := some ("white".units), android := true } := by decide

/-- Embedding of `src/main.js` `ANDROID_COLOR_MAP` (36-40). -/
def ANDROID_COLOR_MAP : List (List Nat × List Nat) :=
  [("transparent".units, "#00000000".units), ("black".units, "#ff000000".units),
   ("white".units, "#ffffffff".units)]

/-- Scan for the first match of `<tagName[^>]*?>`: the first case-insensitive
occurrence of `<tagName` that is followed by a later `>`. -/
def tagSegmentScan (needle : List Nat) : List Nat → Option (List Nat)
  | [] => none
  | c :: rest =>
      let hay := c :: rest
      if ciStarts needle hay then
        let after := hay.drop needle.length
        let middle := after.takeWhile (fun x => x ≠ 62)
        if (after.drop middle.length).head? = some 62 then
          some (hay.take (needle.length + middle.length + 1))
        else tagSegmentScan needle rest
      else tagSegmentScan needle rest

/-- After `android:drawable` / `android:src` / `android:color`: match
`="([^"]+)"` (or the single-quoted variant) and return the capture. -/
def attrCapture (quote : Nat) (s : List Nat) : Option (List Nat) :=
  match s with
  | 61 :: q :: rest =>
      if q = quote then
        let cap := rest.takeWhile (fun x => x ≠ quote)
        if cap ≠ [] ∧ (rest.drop cap.length).head? = some quote then some cap else none
      else none
  | _ => none

/-- Scan for the first match of
`android:(?:drawable|src|color)=<quote>([^<quote>]+)<quote>` (flag `i`). -/
def attrScan (quote : Nat) : List Nat → Option (List Nat)
  | [] => none
  | c :: rest =>
      let hay := c :: rest
      let attempt : Option (List Nat) :=
        if ciStarts ("android:".units) hay then
          let after := hay.drop 8
          if ciStarts ("drawable".units) after then attrCapture quote (after.drop 8)
          else if ciStarts ("src".units) after then attrCapture quote (after.drop 3)
          else if ciStarts ("color".units) after then attrCapture quote (after.drop 5)
          else none
        else none
      match attempt with
      | some cap => some cap
      | none => attrScan quote rest

/-- Embedding of `src/main.js` `extractDrawableFromXml` (760-773). The source also builds
a block pattern, but its opening tag is already matched by the self-closing
pattern tried first, so only the self-closing pattern is reachable. -/
def extractDrawableFromXml (xmlContent tagName : List Nat) : Option (List Nat) :=
  if xmlContent = [] ∨ tagName = [] then none
  else
    match tagSegmentScan (60 :: tagName) xmlContent with
    | none => none
    | some segment =>
        match attrScan 34 segment with
        | some cap => some cap
        | none => attrScan 39 segment

/-- Materialized icon layer (`{ type, path, format }` / `{ type, color,
format }`); `ltype` is the source object's `type` field. -/
structure Layer where
  ltype : List Nat
  path : Option (List Nat) := none
  format : Option (List Nat) := none
  color : Option (List Nat) := none
deriving DecidableEq

/-- Embedding of `src/main.js` `resolveAdaptiveLayerResource` (879-908). The recursive,
I/O-bound `materializeResolvedResource` step is passed as an oracle; the
source's final `{ ...materialized, resource, resolved }` spread only adds
metadata fields no caller reads, so the materialized layer is returned
directly. -/
def resolveAdaptiveLayerResource (adaptiveContent layerTag : List Nat)
    (apks : List Apk) (materialize : ResolvedEntry → Option Layer) : Option Layer :=
  if adaptiveContent = [] ∨ layerTag = [] then none
  else
    match extractDrawableFromXml adaptiveContent layerTag with
    | none => none
    | some drawableRef =>
        match parseResourceValue drawableRef with
        | none => none
        | some resource =>
            if jsTruthy resource.color then
              some { ltype := "color".units, color := resource.color,
                     format := some ("color".units) }
            else
              let mapped : Option (List Nat) :=
                if resource.android ∧ resource.type = some ("color".units)
                    ∧ jsTruthy resource.name then
                  lookupA (lowerN (resource.name.getD [])) ANDROID_COLOR_MAP
                else none
              match mapped with
              | some mappedColor =>
                  some { ltype := "color".units, color := normalizeHexColor mappedColor,
                         format := some ("color".units) }
              | none =>
                  match resolveResourceReference resource apks
                      [".png".units, ".webp".units, ".jpg".units, ".jpeg".units,
                       ".xml".units, ".xml.flat".units] with
                  | none => none
                  | some resolved => materialize resolved

/-- Outcome of the adaptive-icon finalization in `resolveIconFromApks`. -/
inductive AdaptiveOutcome where
  | composed
  | rasterCopy (format : List Nat)
  | vectorCopy
  | colorSwatch (rgba : Rgba)
  | failed
deriving DecidableEq

/-- Adaptive-icon finalization of `resolveIconFromApks` (`src/main.js`
481-531), given the two materialized layers: `sharpAvail` models whether the
optional sharp library loaded, `composeOk` whether `composeAdaptiveIcon`
succeeded; cache-file writes are abstracted into the outcome. `failed`
models the thrown error (no icon cached). -/
def adaptiveIconOutcome (sharpAvail composeOk : Bool)
    (backgroundLayer foregroundLayer : Option Layer) : AdaptiveOutcome :=
  match foregroundLayer with
  | none => .failed
  | some fg =>
      if sharpAvail && (backgroundLayer.isSome || (some fg : Option Layer).isSome)
          && composeOk then
        .composed
      else if fg.ltype = "raster".units ∧ jsTruthy fg.path ∧ jsTruthy fg.format then
        .rasterCopy (fg.format.getD [])
      else if fg.ltype = "vector".units ∧ jsTruthy fg.path then
        .vectorCopy
      else if fg.ltype = "color".units ∧ jsTruthy fg.color ∧ sharpAvail then
        match colorStringToRgba (fg.color.getD []) with
        | some rgba => .colorSwatch rgba
        | none => .failed
      else .failed

/-- Capture of `(?:\\'|[^'])*'` with the regex's greedy backtracking: prefer
consuming a `\'` pair, then a plain non-quote character, then closing. -/
def quoteTail : List Nat → Option (List Nat)
  | [] => none
  | 92 :: 39 :: rest2 =>
      (match quoteTail rest2 with
       | some cap => some (92 :: 39 :: cap)
       | none =>
           match quoteTail (39 :: rest2) with
           | some cap => some (92 :: cap)
           | none => none)
  | c :: rest =>
      if c = 39 then some []
      else
        match quoteTail rest with
        | some cap => some (c :: cap)
        | none => none

/-- First match of `/:'((?:\\'|[^'])*)'/` in a line, returning the capture. -/
def labelCaptureScan : List Nat → Option (List Nat)
  | [] => none
  | 58 :: 39 :: rest =>
      (match quoteTail rest with
       | some cap => some cap
       | none => labelCaptureScan (39 :: rest))
  | _ :: rest => labelCaptureScan rest

/-- Model of `target.replace(/\\'/g, "'")`. -/
def unescapeQuotes : List Nat → List Nat
  | [] => []
  | 92 :: 39 :: rest => 39 :: unescapeQuotes rest
  | c :: rest => c :: unescapeQuotes rest

/-- The trimmed, non-empty lines of a badging dump
(`output.split(/\r?\n/).map(trim).filter(Boolean)`). The source splits on
`/\r?\n/`; splitting on `\n` is equivalent here because each line is trimmed
immediately afterwards, which removes a trailing carriage return. -/
def labelLines (output : List Nat) : List (List Nat) :=
  ((splitOnN 10 output).map trimN).filter (fun l => l ≠ [])

/-- Value extracted from the chosen label line: the regex capture,
unescaped. -/
def labelLineValue (target : List Nat) : Option (List Nat) :=
  match labelCaptureScan target with
  | none => none
  | some cap => some (unescapeQuotes cap)

/-- Embedding of `src/main.js` `parseLabelFromDump` (1264-1274). -/
def parseLabelFromDump (output : List Nat) : Option (List Nat) :=
  if output = [] then none
  else
    let lines := labelLines output
    let preferred := lines.find? (fun line => ("application-label-es:'".units).isPrefixOf line)
    let fallbackLine := lines.find? (fun line => ("application-label:'".units).isPrefixOf line)
    match preferred.or fallbackLine with
    | none => none
    | some target => labelLineValue target

/-- State owned by the label queue worker: the persisted label cache, the
FIFO queue, and the pending set (`queuedLabelPackages`). -/
structure LabelState where
  cache : List (List Nat × List Nat)
  queue : List (List Nat)
  pending : List (List Nat)
deriving DecidableEq

/-- Embedding of `src/main.js` `queueAppLabels` (1140-1151), without the final worker
kick-off (processing is modeled separately). -/
def queueAppLabels (packages : List (List Nat)) (s : LabelState) : LabelState :=
  packages.foldl (fun st pkg =>
    let normalized := trimN pkg
    if normalized = [] then st
    else if jsTruthy (lookupA normalized st.cache) then st
    else if normalized ∈ st.pending then st
    else { st with pending := st.pending ++ [normalized],
                   queue := st.queue ++ [normalized] }) s

/-- Renderer events emitted by the label worker. -/
inductive LabelEvent where
  | started (pkg : List Nat)
  | updated (pkg name : List Nat) (success : Bool)
deriving DecidableEq

/-- Event trace of `processLabelQueue` (`src/main.js` 1153-1193) draining a
queue against a cache. `oracle` models `extractLabelForPackage` (`none` for
both a null result and a thrown error). `rememberAppLabel`'s cache write is
kept; its icon-queue kick-off touches only the separate icon state. Pending
deletions only affect enqueues interleaved with processing, which this
sequential drain does not represent. -/
def runLabelQueue (oracle : List Nat → Option (List Nat)) :
    List (List Nat) → List (List Nat × List Nat) → List LabelEvent
  | [], _ => []
  | pkg :: rest, cache =>
      if pkg = [] then runLabelQueue oracle rest cache
      else
        match truthyStr (lookupA pkg cache) with
        | some cached => .updated pkg cached true :: runLabelQueue oracle rest cache
        | none =>
            let label := truthyStr (oracle pkg)
            let cache' := match label with
              | some l => setA cache pkg l
              | none => cache
            let settled := label.or (truthyStr (lookupA pkg cache'))
            .started pkg :: .updated pkg (settled.getD pkg) settled.isSome
              :: runLabelQueue oracle rest cache'

/-- Drain the label queue of a `LabelState`. -/
def processLabelQueue (oracle : List Nat → Option (List Nat)) (s : LabelState) :
    List LabelEvent :=
  runLabelQueue oracle s.queue s.cache

/-- State owned by the icon queue worker. `iconCache` models
`getCachedIconPath` (the in-memory `packageIconCache` map together with the
on-disk cache probe it mirrors). -/
structure IconState where
  labelCache : List (List Nat × List Nat)
  iconCache : List (List Nat × List Nat)
  queue : List (List Nat)
  pending : List (List Nat)
deriving DecidableEq

/-- Embedding of `src/main.js` `queueAppIcons` (1195-1207), without the worker
kick-off. -/
def queueAppIcons (packages : List (List Nat)) (s : IconState) : IconState :=
  packages.foldl (fun st pkg =>
    let normalized := trimN pkg
    if normalized = [] then st
    else if ¬jsTruthy (lookupA normalized st.labelCache) then st
    else if jsTruthy (lookupA normalized st.iconCache) then st
    else if normalized ∈ st.pending then st
    else { st with pending := st.pending ++ [normalized],
                   queue := st.queue ++ [normalized] }) s

/-- Renderer events emitted by the icon worker. -/
inductive IconEvent where
  | started (pkg : List Nat)
  | updated (pkg iconPath : List Nat) (success : Bool)
deriving DecidableEq

/-- Event trace of `processIconQueue` (`src/main.js` 1209-1262). `oracle`
models `extractIconForPackage` (`none` for a thrown error); on success the
extracted path is recorded in the icon cache, as `resolveIconFromApks` does
via `packageIconCache.set`. `urlOf` models `iconPathToUrl`. -/
def runIconQueue (oracle : List Nat → Option (List Nat))
    (urlOf : List Nat → List Nat) :
    List (List Nat) → List (List Nat × List Nat) → List (List Nat × List Nat) →
    List IconEvent
  | [], _, _ => []
  | pkg :: rest, labelCache, iconCache =>
      if pkg = [] then runIconQueue oracle urlOf rest labelCache iconCache
      else if ¬jsTruthy (lookupA pkg labelCache) then
        runIconQueue oracle urlOf rest labelCache iconCache
      else
        match truthyStr (lookupA pkg iconCache) with
        | some cached =>
            .updated pkg (urlOf cached) true
              :: runIconQueue oracle urlOf rest labelCache iconCache
        | none =>
            match truthyStr (oracle pkg) with
            | some iconPath =>
                let iconCache' := setA iconCache pkg iconPath
                let finalPath := (truthyStr (lookupA pkg iconCache')).getD iconPath
                .started pkg :: .updated pkg (urlOf finalPath) true
                  :: runIconQueue oracle urlOf rest labelCache iconCache'
            | none =>
                .started pkg :: .updated pkg [] false
                  :: runIconQueue oracle urlOf rest labelCache iconCache

/-- Drain the icon queue of an `IconState`. -/
def processIconQueue (oracle : List Nat → Option (List Nat))
    (urlOf : List Nat → List Nat) (s : IconState) : List IconEvent :=
  runIconQueue oracle urlOf s.queue s.labelCache s.iconCache

example :
    extractDrawableFromXml
      ("<adaptive-icon><background android:drawable=\"@android:color/white\"/><foreground android:drawable=\"@mipmap/fg\"/></adaptive-icon>".units)
      ("background".units) = some ("@android:color/white".units) := by decide
example :
    parseLabelFromDump ("package: x\napplication-label:'It\\'s'".units)
      = some ("It's".units) := by decide
example :
    parseLabelFromDump ("application-label-fr:'Foo'\napplication-label:'Bar'".units)
      = some ("Bar".units) := by decide
example :
    parseLabelFromDump ("application-label:'Bar'\napplication-label-es:'Eti'".units)
      = some ("Eti".units) := by decide
example : parseLabelFromDump ("nothing here".units) = none := by decide

theorem lexLeN_refl (a : List Nat) : lexLeN a a = true := by
  induction a with
  | nil => rfl
  | cons x xs ih => simp [lexLeN, ih]

theorem lexLeN_total (a : List Nat) : ∀ b, lexLeN a b = true ∨ lexLeN b a = true := by
  induction a with
  | nil => intro b; left; rfl
  | cons x xs ih =>
      intro b
      cases b with
      | nil => right; rfl
      | cons y ys =>
          by_cases hxy : x < y
          · left; simp [lexLeN, hxy]
          · by_cases hyx : y < x
            · right; simp [lexLeN, hyx]
            · have hx : x = y := by omega
              subst hx
              rcases ih ys with h | h
              · left; simp [lexLeN, h]
              · right; simp [lexLeN, h]

theorem lexLeN_trans : ∀ a b c : List Nat,
    lexLeN a b = true → lexLeN b c = true → lexLeN a c = true
  | [], _, _, _, _ => rfl
  | _ :: _, [], _, h1, _ => by simp [lexLeN] at h1
  | _ :: _, _ :: _, [], _, h2 => by simp [lexLeN] at h2
  | x :: xs, y :: ys, z :: zs, h1, h2 => by
      simp only [lexLeN] at h1 h2 ⊢
      rcases Nat.lt_trichotomy x y with hxy | hxy | hxy
      · rcases Nat.lt_trichotomy y z with hyz | hyz | hyz
        · simp [Nat.lt_trans hxy hyz]
        · subst hyz; simp [hxy]
        · simp [Nat.lt_asymm hyz, hyz] at h2
      · subst hxy
        simp only [Nat.lt_irrefl, if_false] at h1
        rcases Nat.lt_trichotomy x z with hxz | hxz | hxz
        · simp [hxz]
        · subst hxz
          simp only [Nat.lt_irrefl, if_false] at h2 ⊢
          exact lexLeN_trans xs ys zs h1 h2
        · simp [Nat.lt_asymm hxz, hxz] at h2
      · simp [Nat.lt_asymm hxy, hxy] at h1

theorem matchLe_refl (a : MatchEntry) : matchLe a a = true := by
  simp [matchLe, lexLeN_refl]

theorem matchLe_iff (a b : MatchEntry) : matchLe a b = true ↔
    (b.priority < a.priority
      ∨ (a.priority = b.priority ∧ (b.densityScore < a.densityScore
          ∨ (a.densityScore = b.densityScore ∧ lexLeN a.entry b.entry = true)))) := by
  unfold matchLe
  by_cases hp : a.priority = b.priority
  · by_cases hd : a.densityScore = b.densityScore
    · simp [hp, hd]
    · simp [hp, hd]
      try tauto
  · simp [hp]
    try tauto

theorem matchLe_total (a b : MatchEntry) : matchLe a b = true ∨ matchLe b a = true := by
  rw [matchLe_iff, matchLe_iff]
  rcases Nat.lt_trichotomy a.priority b.priority with h | h | h
  · right; left; exact h
  · rcases Nat.lt_trichotomy a.densityScore b.densityScore with g | g | g
    · right; right; exact ⟨h.symm, Or.inl g⟩
    · rcases lexLeN_total a.entry b.entry with l | l
      · left; right; exact ⟨h, Or.inr ⟨g, l⟩⟩
      · right; right; exact ⟨h.symm, Or.inr ⟨g.symm, l⟩⟩
    · left; right; exact ⟨h, Or.inl g⟩
  · left; left; exact h

theorem matchLe_trans (a b c : MatchEntry) (h1 : matchLe a b = true)
    (h2 : matchLe b c = true) : matchLe a c = true := by
  rw [matchLe_iff] at h1 h2 ⊢
  rcases h1 with h | ⟨e1, h⟩ <;> rcases h2 with g | ⟨e2, g⟩
  · left; omega
  · left; omega
  · left; omega
  · right
    refine ⟨e1.trans e2, ?_⟩
    rcases h with h | ⟨hd, hl⟩ <;> rcases g with g | ⟨gd, gl⟩
    · left; omega
    · left; omega
    · left; omega
    · right; exact ⟨hd.trans gd, lexLeN_trans _ _ _ hl gl⟩

instance : IsTotal MatchEntry matchRel := ⟨matchLe_total⟩

instance : IsTrans MatchEntry matchRel := ⟨fun a b c => matchLe_trans a b c⟩

/-- The head of the stable sort is a candidate that every other candidate is
ranked no better than. -/
theorem insertionSort_head_min (ms : List MatchEntry) (m : MatchEntry)
    (hm : (List.insertionSort matchRel ms).head? = some m) :
    m ∈ ms ∧ ∀ m' ∈ ms, matchLe m m' = true := by
  have hperm := List.perm_insertionSort matchRel ms
  have hsorted := List.sorted_insertionSort matchRel ms
  cases hs : List.insertionSort matchRel ms with
  | nil => rw [hs] at hm; simp at hm
  | cons h t =>
      rw [hs] at hm hperm hsorted
      have hmh : m = h := by simpa using hm.symm
      subst hmh
      constructor
      · exact hperm.subset (List.mem_cons_self m t)
      · intro m' hm'
        have hmem : m' ∈ m :: t := hperm.symm.subset hm'
        rcases List.mem_cons.mp hmem with rfl | hmem
        · exact matchLe_refl m'
        · exact List.rel_of_sorted_cons hsorted m' hmem

/-- C1: `findResourceEntry` ranks candidate entries for a type/name
reference first by caller-specified extension priority, then by density
qualifier score, then by lexicographic path (the returned entry is a
collected candidate that is ranked no worse than every other candidate);
in particular, with `preferredExtensions = ['.png', '.xml']` a
`res/drawable-mdpi/icon.png` entry wins over a
`res/drawable-xxxhdpi/icon.xml` entry. -/
theorem C1_resolution_ranking :
    (∀ (entries : List (List Nat)) (rtype rname : List Nat)
       (prefs : List (List Nat)) (e : List Nat),
       findResourceEntry entries { raw := [], type := some rtype, name := some rname }
           prefs = some e →
       ∃ m ∈ collectMatches entries rtype rname (normalizePreferredExtensions prefs),
         m.entry = e ∧
           ∀ m' ∈ collectMatches entries rtype rname (normalizePreferredExtensions prefs),
             matchLe m m' = true)
    ∧ findResourceEntry
        ["res/drawable-mdpi/icon.png".units, "res/drawable-xxxhdpi/icon.xml".units]
        { raw := [], type := some ("drawable".units), name := some ("icon".units) }
        [".png".units, ".xml".units]
        = some ("res/drawable-mdpi/icon.png".units) := by
  constructor
  · intro entries rtype rname prefs e hfind
    unfold findResourceEntry at hfind
    by_cases hent : entries = []
    · simp [hent] at hfind
    · rw [if_neg hent] at hfind
      by_cases hty : rtype = []
      · simp [hty, jsTruthy] at hfind
      · by_cases hna : rname = []
        · simp [hna, jsTruthy] at hfind
        · simp [hty, hna, jsTruthy, Option.map_eq_some'] at hfind
          obtain ⟨m, hm1, hm2⟩ := hfind
          obtain ⟨hmem, hmin⟩ := insertionSort_head_min _ m hm1
          exact ⟨m, hmem, hm2, hmin⟩
  · decide

/-- C1 witness: the general ranking theorem applied to the concrete
mdpi-png / xxxhdpi-xml scenario. -/
theorem C1_resolution_ranking_witness :
    ∃ m ∈ collectMatches
        ["res/drawable-mdpi/icon.png".units, "res/drawable-xxxhdpi/icon.xml".units]
        ("drawable".units) ("icon".units)
        (normalizePreferredExtensions [".png".units, ".xml".units]),
      m.entry = "res/drawable-mdpi/icon.png".units ∧
        ∀ m' ∈ collectMatches
            ["res/drawable-mdpi/icon.png".units, "res/drawable-xxxhdpi/icon.xml".units]
            ("drawable".units) ("icon".units)
            (normalizePreferredExtensions [".png".units, ".xml".units]),
          matchLe m m' = true :=
  C1_resolution_ranking.1 _ _ _ _ _ (by decide)

/-- C2: for a ByTypeName reference, `resolveResourceReference` returns the
top-ranked entry of the first APK (in list order) whose archive index has
any matching entry, regardless of what later APKs contain; in particular,
with a matching mdpi entry in the first APK and a matching xxxhdpi entry in
a later APK, the first APK's entry is returned. -/
theorem C2_apk_order_over_density :
    (∀ (resource : ParsedResource) (front back : List Apk) (a : Apk)
       (prefs : List (List Nat)) (m : List Nat),
       resource.resourceId = none → resource.android = false →
       (∀ b ∈ front, findResourceEntry b.entries resource prefs = none) →
       findResourceEntry a.entries resource prefs = some m →
       resolveResourceReference resource (front ++ a :: back) prefs
         = some ⟨a.localPath, m, getFormatFromEntry m⟩)
    ∧ resolveResourceReference
        { raw := [], type := some ("drawable".units), name := some ("icon".units) }
        [⟨"base.apk".units, ["res/drawable-mdpi/icon.png".units], []⟩,
         ⟨"split.apk".units, ["res/drawable-xxxhdpi/icon.png".units], []⟩]
        [".png".units]
        = some ⟨"base.apk".units, "res/drawable-mdpi/icon.png".units, "png".units⟩ := by
  constructor
  · intro resource front back a prefs m hid hand hfront hfind
    have hrw : resolveResourceReference resource (front ++ a :: back) prefs
        = (front ++ a :: back).findSome? (fun apk =>
            (findResourceEntry apk.entries resource prefs).map
              (fun mm => ⟨apk.localPath, mm, getFormatFromEntry mm⟩)) := by
      unfold resolveResourceReference
      rw [hid]
      simp [jsTruthy, hand]
    rw [hrw]
    clear hrw
    induction front with
    | nil => simp [List.findSome?_cons, hfind]
    | cons b bs ih =>
        rw [List.cons_append, List.findSome?_cons, hfront b (List.mem_cons_self b bs)]
        exact ih (fun x hx => hfront x (List.mem_cons_of_mem b hx))
  · decide

/-- C2 witness: the general first-APK theorem applied to the concrete
two-APK scenario where the later APK has the higher-density match. -/
theorem C2_apk_order_over_density_witness :
    resolveResourceReference
      { raw := [], type := some ("drawable".units), name := some ("icon".units) }
      ([] ++ ⟨"base.apk".units, ["res/drawable-mdpi/icon.png".units], []⟩
        :: [⟨"split.apk".units, ["res/drawable-xxxhdpi/icon.png".units], []⟩])
      [".png".units]
      = some ⟨"base.apk".units, "res/drawable-mdpi/icon.png".units, "png".units⟩ := by
  have h := C2_apk_order_over_density.1
    { raw := [], type := some ("drawable".units), name := some ("icon".units) }
    [] [⟨"split.apk".units, ["res/drawable-xxxhdpi/icon.png".units], []⟩]
    ⟨"base.apk".units, ["res/drawable-mdpi/icon.png".units], []⟩
    [".png".units] ("res/drawable-mdpi/icon.png".units)
    rfl rfl (by simp) (by decide)
  exact h.trans (by decide)

theorem takeWhile_append_of_all {p : Nat → Bool} {l1 l2 : List Nat}
    (h : ∀ x ∈ l1, p x = true) : (l1 ++ l2).takeWhile p = l1 ++ l2.takeWhile p := by
  induction l1 with
  | nil => simp
  | cons c cs ih =>
      rw [List.cons_append, List.takeWhile_cons, if_pos (h c (List.mem_cons_self c cs)),
        ih (fun x hx => h x (List.mem_cons_of_mem c hx)), List.cons_append]

theorem mem_of_mem_takeWhileN {p : Nat → Bool} {l : List Nat} {x : Nat}
    (h : x ∈ l.takeWhile p) : x ∈ l := by
  induction l with
  | nil => simp at h
  | cons c cs ih =>
      rw [List.takeWhile_cons] at h
      by_cases hc : p c = true
      · rw [if_pos hc] at h
        rcases List.mem_cons.mp h with rfl | h
        · exact List.mem_cons_self x cs
        · exact List.mem_cons_of_mem c (ih h)
      · rw [if_neg hc] at h
        simp at h

theorem lastValidDash_append_some {l1 l2 b a : List Nat}
    (h : lastValidDash l2 = some (b, a)) :
    lastValidDash (l1 ++ l2) = some (l1 ++ b, a) := by
  induction l1 with
  | nil => simpa using h
  | cons c cs ih => simp [lastValidDash, ih]

theorem lastValidDash_none {l : List Nat} (h : 45 ∉ l) : lastValidDash l = none := by
  induction l with
  | nil => rfl
  | cons c cs ih =>
      have hc : ¬(c = 45) := fun e => h (by simp [e])
      simp [lastValidDash, ih (fun m => h (List.mem_cons_of_mem c m)), hc]

theorem densitySegCapture_no_dash {seg : List Nat} (h45 : 45 ∉ seg) :
    densitySegCapture seg = none := by
  unfold densitySegCapture
  rw [lastValidDash_none h45]

theorem splitOnN_no_sep {sep : Nat} {l : List Nat} (h : sep ∉ l) :
    splitOnN sep l = [l] := by
  induction l with
  | nil => rfl
  | cons c cs ih =>
      have hc : ¬(c = sep) := fun e => h (by simp [e])
      simp [splitOnN, hc, ih (fun m => h (List.mem_cons_of_mem c m))]

theorem jsLower_eq_self {c : Nat} (h : ¬(65 ≤ c ∧ c ≤ 90)) : jsLower c = c := by
  simp [jsLower, h]

theorem lowerN_of_no_upper {l : List Nat} (h : ∀ c ∈ l, ¬(65 ≤ c ∧ c ≤ 90)) :
    lowerN l = l := by
  unfold lowerN
  rw [List.map_congr_left (fun c hc => jsLower_eq_self (h c hc))]
  exact List.map_id l

theorem lookupA_digit_head_none {β : Type} (table : List (List Nat × β)) (d : Nat)
    (k : List Nat) (hd : isDigitN d = true)
    (ht : table.all (fun p => match p.1 with
        | [] => false
        | h :: _ => !isDigitN h) = true) :
    lookupA (d :: k) table = none := by
  induction table with
  | nil => rfl
  | cons p rest ih =>
      rcases p with ⟨key, v⟩
      rw [List.all_cons, Bool.and_eq_true] at ht
      obtain ⟨h1, h2⟩ := ht
      cases key with
      | nil => simp at h1
      | cons h t =>
          simp only [Bool.not_eq_true'] at h1
          have hne : ¬(h :: t = d :: k) := by
            intro heq
            injection heq with hh _
            rw [hh, hd] at h1
            exact Bool.noConfusion h1
          unfold lookupA
          rw [if_neg hne]
          exact ih h2


theorem getDensityScore_eq_fold {entry cap : List Nat} (hne : entry ≠ [])
    (h : densityQualifierCapture entry = some cap) :
    getDensityScore entry = densityFoldScore cap := by
  unfold getDensityScore
  rw [if_neg hne, h]

theorem getDensityScore_eq_zero {entry : List Nat}
    (h : densityQualifierCapture entry = none) : getDensityScore entry = 0 := by
  unfold getDensityScore
  by_cases hne : entry = []
  · rw [if_pos hne]
  · rw [if_neg hne, h]

/-- Evaluation of the qualifier-capture regex on a well-formed entry
`res/<seg>/<rest>` with `seg` free of slashes. -/
theorem densityQualifierCapture_eval (X C : List Nat) (hX : ∀ x ∈ X, ¬(x = 47)) :
    densityQualifierCapture (114 :: 101 :: 115 :: 47 :: (X ++ (47 :: C)))
      = densitySegCapture X := by
  have hseg : (X ++ (47 :: C)).takeWhile (fun c => c ≠ 47) = X := by
    rw [takeWhile_append_of_all (fun x hx => by simp [hX x hx])]
    simp [List.takeWhile_cons]
  simp only [densityQualifierCapture]
  rw [if_pos (by decide)]
  simp only [hseg]
  rw [List.drop_left]
  simp

/-- Unrecognized numeric qualifier: for every non-empty digit string `n`,
an entry `res/drawable-<n>dpi/icon.png` scores exactly the number `n`. -/
theorem getDensityScore_numeric (ds : List Nat) (hne : ds ≠ [])
    (hdig : ∀ c ∈ ds, isDigitN c = true) :
    getDensityScore (("res/drawable-".units ++ ds) ++ "dpi/icon.png".units)
      = parseDecN ds := by
  have hds45 : (45 : Nat) ∉ ds ++ ([100, 112, 105] : List Nat) := by
    intro hm
    rcases List.mem_append.mp hm with hm | hm
    · have := hdig 45 hm
      simp [isDigitN] at this
    · simp at hm
  have hE : ("res/drawable-".units ++ ds) ++ "dpi/icon.png".units
      = 114 :: 101 :: 115 :: 47 ::
          ((([100, 114, 97, 119, 97, 98, 108, 101] : List Nat)
              ++ (45 :: (ds ++ [100, 112, 105])))
            ++ (47 :: [105, 99, 111, 110, 46, 112, 110, 103])) := by
    have hA : "res/drawable-".units
        = [114, 101, 115, 47, 100, 114, 97, 119, 97, 98, 108, 101, 45] := by decide
    have hB : "dpi/icon.png".units
        = [100, 112, 105, 47, 105, 99, 111, 110, 46, 112, 110, 103] := by decide
    rw [hA, hB]
    simp
  rw [hE]
  have hX47 : ∀ x ∈ ([100, 114, 97, 119, 97, 98, 108, 101] : List Nat)
      ++ (45 :: (ds ++ [100, 112, 105])), ¬(x = 47) := by
    intro x hx
    rcases List.mem_append.mp hx with hm | hm
    · simp at hm
      rcases hm with rfl | rfl | rfl | rfl | rfl | rfl | rfl | rfl <;> decide
    · rcases List.mem_cons.mp hm with rfl | hm
      · decide
      · rcases List.mem_append.mp hm with hm | hm
        · have := hdig x hm
          simp [isDigitN] at this
          omega
        · simp at hm
          rcases hm with rfl | rfl | rfl <;> decide
  have hcap : densitySegCapture
        (([100, 114, 97, 119, 97, 98, 108, 101] : List Nat)
          ++ (45 :: (ds ++ [100, 112, 105])))
      = some (ds ++ [100, 112, 105]) := by
    have h1 : lastValidDash (ds ++ [100, 112, 105]) = none := lastValidDash_none hds45
    have h2 : lastValidDash (45 :: (ds ++ [100, 112, 105]))
        = some ([], ds ++ [100, 112, 105]) := by
      simp [lastValidDash, h1]
    have h3 := @lastValidDash_append_some [100, 114, 97, 119, 97, 98, 108, 101]
      (45 :: (ds ++ [100, 112, 105])) [] (ds ++ [100, 112, 105]) h2
    unfold densitySegCapture
    rw [h3]
    simp
  rw [getDensityScore_eq_fold (by simp)
    ((densityQualifierCapture_eval _ _ hX47).trans hcap)]
  unfold densityFoldScore
  rw [splitOnN_no_sep hds45]
  simp only [List.foldl_cons, List.foldl_nil]
  have hlow : lowerN (ds ++ [100, 112, 105]) = ds ++ [100, 112, 105] := by
    apply lowerN_of_no_upper
    intro c hc
    rcases List.mem_append.mp hc with hm | hm
    · have := hdig c hm
      simp [isDigitN] at this
      omega
    · simp at hm
      rcases hm with rfl | rfl | rfl <;> decide
  obtain ⟨d, ds', rfl⟩ := List.exists_cons_of_ne_nil hne
  have hlk : lookupA ((d :: ds') ++ [100, 112, 105]) DENSITY_QUALIFIER_SCORES
      = none := by
    rw [List.cons_append]
    exact lookupA_digit_head_none _ d _ (hdig d (List.mem_cons_self d ds')) (by decide)
  have hnd : ndpiValue ((d :: ds') ++ [100, 112, 105]) = some (parseDecN (d :: ds')) := by
    unfold ndpiValue
    have htw : ((d :: ds') ++ [100, 112, 105]).takeWhile isDigitN = d :: ds' := by
      rw [takeWhile_append_of_all hdig]
      have h100 : isDigitN 100 = false := by decide
      simp [List.takeWhile_cons, h100]
    rw [htw]
    rw [if_pos ⟨by simp, by rw [List.drop_left]; decide⟩]
  simp only [hlow, hlk, hnd]
  simp [Nat.zero_max]

/-- Entries whose path contains no dash at all get density score zero. -/
theorem getDensityScore_no_dash (entry : List Nat) (h : (45 : Nat) ∉ entry) :
    getDensityScore entry = 0 := by
  have hcap : densityQualifierCapture entry = none := by
    rcases entry with _ | ⟨r, _ | ⟨e, _ | ⟨s, _ | ⟨sl, rest⟩⟩⟩⟩
    · rfl
    · rfl
    · rfl
    · rfl
    · simp only [densityQualifierCapture]
      split
      · have hseg45 : (45 : Nat) ∉ rest.takeWhile (fun c => c ≠ 47) := by
          intro hm
          have hmem := mem_of_mem_takeWhileN hm
          exact h (by simp [hmem])
        rw [densitySegCapture_no_dash hseg45]
        split
        · rfl
        · rfl
      · rfl
  exact getDensityScore_eq_zero hcap

/-- C3 counterexample: the claim says `ldpi` scores lowest among the named
density qualifiers, but the table also names `sdpi` with score 180, strictly
below `ldpi`'s 200 — so an `sdpi` entry scores below an `ldpi` entry. -/
theorem C3_density_scoring_counterexample :
    lookupA ("sdpi".units) DENSITY_QUALIFIER_SCORES = some 180
    ∧ lookupA ("ldpi".units) DENSITY_QUALIFIER_SCORES = some 200
    ∧ getDensityScore ("res/drawable-sdpi/icon.png".units)
        < getDensityScore ("res/drawable-ldpi/icon.png".units) := by
  decide

/-- C3 (amended): the fixed qualifier table scores `xxxhdpi` highest (800)
and `sdpi` lowest (180), with `ldpi` (200) lowest among the remaining named
qualifiers; `nodpi` and `anydpi` get the intermediate fixed scores 480 and
300; an unrecognized numeric `<n>dpi` qualifier scores exactly `n`; an
entry with no qualifier dash scores zero; and among same-extension
candidates at `xxhdpi`, `hdpi`, and no qualifier, the `xxhdpi` entry is
selected. -/
theorem C3_density_scoring_amended :
    (∀ p ∈ DENSITY_QUALIFIER_SCORES, 180 ≤ p.2 ∧ p.2 ≤ 800)
    ∧ lookupA ("xxxhdpi".units) DENSITY_QUALIFIER_SCORES = some 800
    ∧ lookupA ("sdpi".units) DENSITY_QUALIFIER_SCORES = some 180
    ∧ (∀ p ∈ DENSITY_QUALIFIER_SCORES, p.1 ≠ "sdpi".units → 200 ≤ p.2)
    ∧ lookupA ("nodpi".units) DENSITY_QUALIFIER_SCORES = some 480
    ∧ lookupA ("anydpi".units) DENSITY_QUALIFIER_SCORES = some 300
    ∧ (∀ ds : List Nat, ds ≠ [] → (∀ c ∈ ds, isDigitN c = true) →
        getDensityScore (("res/drawable-".units ++ ds) ++ "dpi/icon.png".units)
          = parseDecN ds)
    ∧ (∀ entry : List Nat, (45 : Nat) ∉ entry → getDensityScore entry = 0)
    ∧ findResourceEntry
        ["res/drawable-hdpi/icon.png".units, "res/drawable-xxhdpi/icon.png".units,
         "res/drawable/icon.png".units]
        { raw := [], type := some ("drawable".units), name := some ("icon".units) }
        [".png".units, ".webp".units, ".jpg".units, ".jpeg".units]
        = some ("res/drawable-xxhdpi/icon.png".units) := by
  refine ⟨by decide, by decide, by decide, by decide, by decide, by decide,
    getDensityScore_numeric, getDensityScore_no_dash, by decide⟩

/-- C3 witness: the amended theorem's universal parts applied at concrete
inputs — qualifier `440dpi` scores 440, and a dashless entry scores 0. -/
theorem C3_density_scoring_amended_witness :
    getDensityScore (("res/drawable-".units ++ "440".units) ++ "dpi/icon.png".units)
      = parseDecN ("440".units)
    ∧ getDensityScore ("res/drawable/icon.png".units) = 0 :=
  ⟨C3_density_scoring_amended.2.2.2.2.2.2.1 ("440".units) (by decide) (by decide),
   C3_density_scoring_amended.2.2.2.2.2.2.2.1 ("res/drawable/icon.png".units) (by decide)⟩

/-- C4: platform-namespace color references `android:color/transparent`,
`android:color/black`, `android:color/white` resolve to the fixed ARGB
constants `#00000000`, `#ff000000`, `#ffffffff` as color layers for every
APK list and every materialization oracle (no archive or file lookup);
any other `android:` reference is unresolved, and
`resolveResourceReference` returns no match for every platform-namespace
reference. -/
theorem C4_platform_color_mapping :
    (∀ (apks : List Apk) (materialize : ResolvedEntry → Option Layer),
        resolveAdaptiveLayerResource
          ("<background android:drawable=\"@android:color/transparent\"/>".units)
          ("background".units) apks materialize
          = some { ltype := "color".units, color := some ("#00000000".units),
                   format := some ("color".units) })
    ∧ (∀ (apks : List Apk) (materialize : ResolvedEntry → Option Layer),
        resolveAdaptiveLayerResource
          ("<background android:drawable=\"@android:color/black\"/>".units)
          ("background".units) apks materialize
          = some { ltype := "color".units, color := some ("#ff000000".units),
                   format := some ("color".units) })
    ∧ (∀ (apks : List Apk) (materialize : ResolvedEntry → Option Layer),
        resolveAdaptiveLayerResource
          ("<foreground android:drawable=\"@android:color/white\"/>".units)
          ("foreground".units) apks materialize
          = some { ltype := "color".units, color := some ("#ffffffff".units),
                   format := some ("color".units) })
    ∧ (∀ (apks : List Apk) (materialize : ResolvedEntry → Option Layer),
        resolveAdaptiveLayerResource
          ("<background android:drawable=\"@android:color/holo_red_dark\"/>".units)
          ("background".units) apks materialize = none)
    ∧ (∀ (resource : ParsedResource) (apks : List Apk) (prefs : List (List Nat)),
        resolveResourceReference { resource with android := true } apks prefs
          = none) := by
  refine ⟨fun _ _ => rfl, fun _ _ => rfl, fun _ _ => rfl, fun _ _ => rfl, ?_⟩
  intro resource apks prefs
  unfold resolveResourceReference
  split
  · split
    · simp
    · simp
  · simp

theorem isHexDigitN_not_ws {c : Nat} (h : isHexDigitN c = true) : isWS c = false := by
  simp [isHexDigitN] at h
  simp [isWS]
  omega

theorem trimN_hash_hex (l : List Nat) (hall : ∀ c ∈ l, isHexDigitN c = true)
    (hne : l ≠ []) : trimN (35 :: l) = 35 :: l := by
  unfold trimN
  rw [List.dropWhile_cons, if_neg (by decide)]
  rcases List.eq_nil_or_concat l with rfl | ⟨l', c, rfl⟩
  · exact absurd rfl hne
  · rw [List.concat_eq_append] at hall hne ⊢
    have hrev : (35 :: (l' ++ [c])).reverse = c :: (l'.reverse ++ [35]) := by simp
    rw [hrev, List.dropWhile_cons,
      if_neg (by simp [isHexDigitN_not_ws (hall c (by simp))]), ← hrev,
      List.reverse_reverse]

/-- C5 counterexample: on the 8-digit literal `#11223344` the code parses
alpha from the two leading digits (`0x11`) and r, g, b from the remaining
six, not r, g, b from the first six and alpha from the trailing two as the
claim states. -/
theorem C5_color_literal_counterexample :
    colorStringToRgba ("#11223344".units) = some ⟨34, 51, 68, 17⟩
    ∧ colorStringToRgba ("#11223344".units) ≠ some ⟨17, 34, 51, 68⟩ := by
  decide

/-- C5 (amended): an 8-hex-digit literal accepted by `isColorValue` has the
form `#AARRGGBB`: `colorStringToRgba` parses the alpha channel from the two
leading digits and r, g, b from the trailing six. -/
theorem C5_color_literal_amended (d1 d2 d3 d4 d5 d6 d7 d8 : Nat)
    (h1 : isHexDigitN d1 = true) (h2 : isHexDigitN d2 = true)
    (h3 : isHexDigitN d3 = true) (h4 : isHexDigitN d4 = true)
    (h5 : isHexDigitN d5 = true) (h6 : isHexDigitN d6 = true)
    (h7 : isHexDigitN d7 = true) (h8 : isHexDigitN d8 = true) :
    isColorValue (35 :: [d1, d2, d3, d4, d5, d6, d7, d8]) = true
    ∧ colorStringToRgba (35 :: [d1, d2, d3, d4, d5, d6, d7, d8])
      = some { r := hexValN (jsLower d3) * 16 + hexValN (jsLower d4),
               g := hexValN (jsLower d5) * 16 + hexValN (jsLower d6),
               b := hexValN (jsLower d7) * 16 + hexValN (jsLower d8),
               a := hexValN (jsLower d1) * 16 + hexValN (jsLower d2) } := by
  have hall : ∀ c ∈ [d1, d2, d3, d4, d5, d6, d7, d8], isHexDigitN c = true := by
    intro c hc
    simp at hc
    rcases hc with rfl | rfl | rfl | rfl | rfl | rfl | rfl | rfl <;> assumption
  have htrim := trimN_hash_hex _ hall (by simp)
  have hcv : isColorValue (35 :: [d1, d2, d3, d4, d5, d6, d7, d8]) = true := by
    unfold isColorValue
    rw [if_neg (by simp)]
    simp only [htrim]
    simp [h1, h2, h3, h4, h5, h6, h7, h8]
  refine ⟨hcv, ?_⟩
  have hnorm : normalizeHexColor (35 :: [d1, d2, d3, d4, d5, d6, d7, d8])
      = some (35 :: [jsLower d1, jsLower d2, jsLower d3, jsLower d4,
          jsLower d5, jsLower d6, jsLower d7, jsLower d8]) := by
    unfold normalizeHexColor
    rw [if_neg (by simp [hcv])]
    simp [htrim, lowerN]
  unfold colorStringToRgba
  rw [if_neg (by simp), hnorm]
  simp [parseHexN]

/-- C5 witness: the amended theorem applied at the concrete literal
`#11223344`, whose channels evaluate to a = 17, r = 34, g = 51, b = 68. -/
theorem C5_color_literal_amended_witness :
    isColorValue ("#11223344".units) = true
    ∧ colorStringToRgba ("#11223344".units) = some ⟨34, 51, 68, 17⟩ := by
  have h := C5_color_literal_amended 49 49 50 50 51 51 52 52 (by decide) (by decide)
    (by decide) (by decide) (by decide) (by decide) (by decide) (by decide)
  have heq : "#11223344".units = 35 :: [49, 49, 50, 50, 51, 51, 52, 52] := by decide
  rw [heq]
  exact ⟨h.1, h.2.trans (by decide)⟩

/-- C6 counterexample: with only a French localized line and a generic line
present, the parser returns the generic line's value (`Bar`), not the
localized one (`Foo`) — only `application-label-es` is preferred, not any
locale. -/
theorem C6_label_parser_counterexample :
    parseLabelFromDump ("application-label-fr:'Foo'\napplication-label:'Bar'".units)
      = some ("Bar".units)
    ∧ some ("Bar".units) ≠ some ("Foo".units) := by
  decide

/-- C6 (amended): the label parser prefers the first Spanish
`application-label-es` line over the generic `application-label` line; the
first matching line of each kind wins; lines of any other locale match
neither pattern and are ignored; escaped `\'` sequences are unescaped; and
the result is none when neither kind of line exists. -/
theorem C6_label_parser_amended :
    (∀ (output l : List Nat), output ≠ [] →
       (labelLines output).find?
           (fun line => ("application-label-es:'".units).isPrefixOf line) = some l →
       parseLabelFromDump output = labelLineValue l)
    ∧ (∀ (output l : List Nat), output ≠ [] →
       (labelLines output).find?
           (fun line => ("application-label-es:'".units).isPrefixOf line) = none →
       (labelLines output).find?
           (fun line => ("application-label:'".units).isPrefixOf line) = some l →
       parseLabelFromDump output = labelLineValue l)
    ∧ (∀ output : List Nat,
       (labelLines output).find?
           (fun line => ("application-label-es:'".units).isPrefixOf line) = none →
       (labelLines output).find?
           (fun line => ("application-label:'".units).isPrefixOf line) = none →
       parseLabelFromDump output = none)
    ∧ parseLabelFromDump ("application-label:'It\\'s'".units) = some ("It's".units)
    ∧ (∀ l : List Nat, ("application-label-fr:'".units).isPrefixOf l = true →
        ("application-label-es:'".units).isPrefixOf l = false
        ∧ ("application-label:'".units).isPrefixOf l = false) := by
  refine ⟨?_, ?_, ?_, by decide, ?_⟩
  · intro output l hne h1
    unfold parseLabelFromDump
    rw [if_neg hne]
    simp only [h1, Option.or]
  · intro output l hne h1 h2
    unfold parseLabelFromDump
    rw [if_neg hne]
    simp only [h1, h2, Option.or]
  · intro output h1 h2
    unfold parseLabelFromDump
    by_cases hne : output = []
    · rw [if_pos hne]
    · rw [if_neg hne]
      simp only [h1, h2, Option.or]
  · intro l hfr
    have hfr' : ("application-label-fr:'".units) <+: l :=
      List.isPrefixOf_iff_prefix.mp hfr
    constructor
    · rw [← Bool.not_eq_true]
      intro hes
      have hes' : ("application-label-es:'".units) <+: l :=
        List.isPrefixOf_iff_prefix.mp hes
      rcases List.prefix_or_prefix_of_prefix hes' hfr' with h | h
      · have := h.eq_of_length (by decide)
        exact absurd this (by decide)
      · have := h.eq_of_length (by decide)
        exact absurd this (by decide)
    · rw [← Bool.not_eq_true]
      intro hgen
      have hgen' : ("application-label:'".units) <+: l :=
        List.isPrefixOf_iff_prefix.mp hgen
      have := List.prefix_of_prefix_length_le hgen' hfr' (by decide)
      exact absurd this (by decide)

/-- C6 witness: the amended preference theorem applied to a dump where a
generic line precedes a Spanish localized line; the localized line wins. -/
theorem C6_label_parser_amended_witness :
    parseLabelFromDump ("application-label:'Bar'\napplication-label-es:'Eti'".units)
      = labelLineValue ("application-label-es:'Eti'".units) :=
  C6_label_parser_amended.1 _ _ (by decide) (by decide)

/-- C7 counterexample: with the sharp library unavailable and a
successfully materialized color foreground, the adaptive-icon finalization
throws (no icon) instead of producing a solid color swatch — the swatch
branch requires sharp. -/
theorem C7_no_sharp_fallback_counterexample :
    adaptiveIconOutcome false true none
        (some { ltype := "color".units, color := some ("#ff00ff00".units) })
      = AdaptiveOutcome.failed := by
  decide

/-- C7 (amended): when sharp is unavailable, a raster foreground is copied
as-is and a vector foreground is copied as-is (the background layer being
discarded: the outcome does not depend on it), but a color foreground makes
the operation fail, because the solid-color swatch is rendered with sharp. -/
theorem C7_no_sharp_fallback_amended :
    (∀ (composeOk : Bool) (bg : Option Layer) (p f : List Nat)
       (co : Option (List Nat)), p ≠ [] → f ≠ [] →
       adaptiveIconOutcome false composeOk bg
           (some { ltype := "raster".units, path := some p, format := some f,
                   color := co })
         = AdaptiveOutcome.rasterCopy f)
    ∧ (∀ (composeOk : Bool) (bg : Option Layer) (p : List Nat)
       (fo co : Option (List Nat)), p ≠ [] →
       adaptiveIconOutcome false composeOk bg
           (some { ltype := "vector".units, path := some p, format := fo,
                   color := co })
         = AdaptiveOutcome.vectorCopy)
    ∧ (∀ (composeOk : Bool) (bg : Option Layer) (po fo c : Option (List Nat)),
       adaptiveIconOutcome false composeOk bg
           (some { ltype := "color".units, path := po, format := fo, color := c })
         = AdaptiveOutcome.failed)
    ∧ (∀ (composeOk : Bool) (bg bg' fg : Option Layer),
       adaptiveIconOutcome false composeOk bg fg
         = adaptiveIconOutcome false composeOk bg' fg) := by
  refine ⟨?_, ?_, ?_, ?_⟩
  · intro composeOk bg p f co hp hf
    simp [adaptiveIconOutcome, jsTruthy, hp, hf]
  · intro composeOk bg p fo co hp
    have hvr : ("vector".units) ≠ ("raster".units) := by decide
    simp [adaptiveIconOutcome, jsTruthy, hp, hvr]
  · intro composeOk bg po fo c
    have hcr : ("color".units) ≠ ("raster".units) := by decide
    have hcv : ("color".units) ≠ ("vector".units) := by decide
    simp [adaptiveIconOutcome, jsTruthy, hcr, hcv]
  · intro composeOk bg bg' fg
    cases fg <;> simp [adaptiveIconOutcome]

/-- C7 witness: the amended raster-fallback case applied to a concrete
raster foreground layer. -/
theorem C7_no_sharp_fallback_amended_witness :
    adaptiveIconOutcome false true none
        (some { ltype := "raster".units, path := some ("fg.png".units),
                format := some ("png".units), color := none })
      = AdaptiveOutcome.rasterCopy ("png".units) :=
  C7_no_sharp_fallback_amended.1 true none ("fg.png".units) ("png".units) none
    (by decide) (by decide)

theorem lookupA_setA_ne {β : Type} (m : List (List Nat × β)) (k k' : List Nat)
    (v : β) (h : k' ≠ k) : lookupA k (setA m k' v) = lookupA k m := by
  induction m with
  | nil => simp [setA, lookupA, h]
  | cons p rest ih =>
      rcases p with ⟨pk, pv⟩
      by_cases hpk : pk = k'
      · subst hpk
        simp [setA, lookupA, h]
      · simp only [setA, if_neg hpk, lookupA]
        by_cases hk : pk = k
        · simp [hk]
        · simp [hk, ih]

theorem truthyStr_eq_none {o : Option (List Nat)} (h : jsTruthy o = false) :
    truthyStr o = none := by
  cases o with
  | none => rfl
  | some l =>
      simp [jsTruthy] at h
      simp [truthyStr, h]

/-- Draining a queue `front ++ [p]`, with `p` nowhere in `front` and not yet
cached, emits exactly one started event for `p`. -/
theorem runLabelQueue_count (oracle : List Nat → Option (List Nat)) (p : List Nat)
    (hp : p ≠ []) :
    ∀ (front : List (List Nat)) (cache : List (List Nat × List Nat)),
      p ∉ front → jsTruthy (lookupA p cache) = false →
      (runLabelQueue oracle (front ++ [p]) cache).count (LabelEvent.started p) = 1 := by
  intro front
  induction front with
  | nil =>
      intro cache _ hcache
      simp only [List.nil_append, runLabelQueue]
      rw [if_neg hp]
      simp [truthyStr_eq_none hcache, List.count_cons]
  | cons q front' ih =>
      intro cache hnm hcache
      have hqp : q ≠ p := fun e => hnm (by simp [e])
      have hpf : p ∉ front' := fun m => hnm (by simp [m])
      simp only [List.cons_append, runLabelQueue]
      by_cases hq : q = []
      · rw [if_pos hq]
        exact ih cache hpf hcache
      · rw [if_neg hq]
        cases hc : truthyStr (lookupA q cache) with
        | some cached =>
            simp only [List.count_cons, List.append_eq]
            rw [ih cache hpf hcache]
            simp [hqp]
        | none =>
            cases ho : truthyStr (oracle q) with
            | some l =>
                simp only [ho, List.count_cons, List.append_eq]
                rw [ih (setA cache q l) hpf
                  (by rw [lookupA_setA_ne _ _ _ _ hqp]; exact hcache)]
                simp [hqp]
            | none =>
                simp only [ho, List.count_cons, List.append_eq]
                rw [ih cache hpf hcache]
                simp [hqp]

/-- C8: enqueuing the same package twice while the first request is still
pending leaves the queue state unchanged and draining it emits exactly one
started event for that package; a package already pending or already cached
is never re-enqueued. -/
theorem C8_queue_dedup :
    (∀ (s : LabelState) (p : List Nat) (oracle : List Nat → Option (List Nat)),
       trimN p = p → p ≠ [] → jsTruthy (lookupA p s.cache) = false →
       p ∉ s.queue → p ∉ s.pending →
       queueAppLabels [p] (queueAppLabels [p] s) = queueAppLabels [p] s
       ∧ (processLabelQueue oracle (queueAppLabels [p] (queueAppLabels [p] s))).count
           (LabelEvent.started p) = 1)
    ∧ (∀ (s : LabelState) (q : List Nat), trimN q = q →
       (q ∈ s.pending ∨ jsTruthy (lookupA q s.cache) = true) →
       queueAppLabels [q] s = s) := by
  constructor
  · intro s p oracle htrim hp hcache hq hpend
    have henq : queueAppLabels [p] s
        = { cache := s.cache, queue := s.queue ++ [p], pending := s.pending ++ [p] } := by
      simp [queueAppLabels, htrim, hp, hcache, hpend]
    have hidem : queueAppLabels [p] (queueAppLabels [p] s) = queueAppLabels [p] s := by
      rw [henq]
      simp [queueAppLabels, htrim, hp, hcache]
    refine ⟨hidem, ?_⟩
    rw [hidem, henq]
    exact runLabelQueue_count oracle p hp s.queue s.cache hq hcache
  · intro s q htrim hmem
    by_cases hq : q = []
    · subst hq
      simp [queueAppLabels, show trimN ([] : List Nat) = [] from rfl]
    · rcases hmem with hmem | hmem
      · cases hc : jsTruthy (lookupA q s.cache) <;>
          simp [queueAppLabels, htrim, hq, hc, hmem]
      · simp [queueAppLabels, htrim, hq, hmem]

/-- C8 witness: the dedup theorem applied to an initially empty state and a
failing extractor. -/
theorem C8_queue_dedup_witness :
    queueAppLabels ["com.app".units] (queueAppLabels ["com.app".units] ⟨[], [], []⟩)
      = queueAppLabels ["com.app".units] ⟨[], [], []⟩
    ∧ (processLabelQueue (fun _ => none)
        (queueAppLabels ["com.app".units]
          (queueAppLabels ["com.app".units] ⟨[], [], []⟩))).count
        (LabelEvent.started ("com.app".units)) = 1 :=
  C8_queue_dedup.1 ⟨[], [], []⟩ ("com.app".units) (fun _ => none)
    (by decide) (by decide) (by decide) (by simp) (by simp)

/-- A queued, uncached package whose extraction fails still gets an updated
event with the package id as name and success false. -/
theorem runLabelQueue_fail_event (oracle : List Nat → Option (List Nat))
    (p : List Nat) (hp : p ≠ []) (hfail : oracle p = none) :
    ∀ (queue : List (List Nat)) (cache : List (List Nat × List Nat)),
      p ∈ queue → jsTruthy (lookupA p cache) = false →
      LabelEvent.updated p p false ∈ runLabelQueue oracle queue cache := by
  intro queue
  induction queue with
  | nil =>
      intro cache h _
      simp at h
  | cons q rest ih =>
      intro cache hmem hcache
      by_cases hqp : q = p
      · subst hqp
        simp only [runLabelQueue]
        rw [if_neg hp, truthyStr_eq_none hcache, hfail]
        cases hl : lookupA q cache with
        | none => simp [truthyStr, hl]
        | some l =>
            have hl' : l = [] := by simpa [jsTruthy, hl] using hcache
            simp [truthyStr, hl, hl']
      · have hmem' : p ∈ rest := by
          rcases List.mem_cons.mp hmem with he | hm
          · exact absurd he.symm hqp
          · exact hm
        simp only [runLabelQueue]
        by_cases hq : q = []
        · rw [if_pos hq]
          exact ih cache hmem' hcache
        · rw [if_neg hq]
          cases hc : truthyStr (lookupA q cache) with
          | some cached =>
              exact List.mem_cons_of_mem _ (ih cache hmem' hcache)
          | none =>
              cases ho : truthyStr (oracle q) with
              | some l =>
                  simp only [ho]
                  refine List.mem_cons_of_mem _ (List.mem_cons_of_mem _
                    (ih (setA cache q l) hmem' ?_))
                  rw [lookupA_setA_ne _ _ _ _ hqp]
                  exact hcache
              | none =>
                  simp only [ho]
                  exact List.mem_cons_of_mem _ (List.mem_cons_of_mem _
                    (ih cache hmem' hcache))

/-- A queued icon package with a known label, no cached icon, and a failing
extraction still gets an updated event with empty path and success false. -/
theorem runIconQueue_fail_event (oracle : List Nat → Option (List Nat))
    (urlOf : List Nat → List Nat) (p : List Nat) (hp : p ≠ [])
    (hfail : oracle p = none) :
    ∀ (queue : List (List Nat)) (labelCache iconCache : List (List Nat × List Nat)),
      p ∈ queue → jsTruthy (lookupA p labelCache) = true →
      jsTruthy (lookupA p iconCache) = false →
      IconEvent.updated p [] false ∈ runIconQueue oracle urlOf queue labelCache iconCache := by
  intro queue
  induction queue with
  | nil =>
      intro labelCache iconCache h _ _
      simp at h
  | cons q rest ih =>
      intro labelCache iconCache hmem hlabel hicon
      by_cases hqp : q = p
      · subst hqp
        simp only [runIconQueue]
        rw [if_neg hp, if_neg (by simp [hlabel]), truthyStr_eq_none hicon, hfail]
        simp [truthyStr]
      · have hmem' : p ∈ rest := by
          rcases List.mem_cons.mp hmem with he | hm
          · exact absurd he.symm hqp
          · exact hm
        simp only [runIconQueue]
        by_cases hq : q = []
        · rw [if_pos hq]
          exact ih labelCache iconCache hmem' hlabel hicon
        · rw [if_neg hq]
          by_cases hlq : jsTruthy (lookupA q labelCache) = true
          · rw [if_neg (by simp [hlq])]
            cases hc : truthyStr (lookupA q iconCache) with
            | some cached =>
                exact List.mem_cons_of_mem _ (ih labelCache iconCache hmem' hlabel hicon)
            | none =>
                cases ho : truthyStr (oracle q) with
                | some iconPath =>
                    simp only [ho]
                    refine List.mem_cons_of_mem _ (List.mem_cons_of_mem _
                      (ih labelCache (setA iconCache q iconPath) hmem' hlabel ?_))
                    rw [lookupA_setA_ne _ _ _ _ hqp]
                    exact hicon
                | none =>
                    simp only [ho]
                    exact List.mem_cons_of_mem _ (List.mem_cons_of_mem _
                      (ih labelCache iconCache hmem' hlabel hicon))
          · rw [if_pos (by simp [hlq])]
            exact ih labelCache iconCache hmem' hlabel hicon

/-- C9: a failed per-package extraction still emits an updated event with
success false — for the label queue the event carries the package id itself
as display name, for the icon queue an empty icon path. -/
theorem C9_failure_still_updates :
    (∀ (s : LabelState) (oracle : List Nat → Option (List Nat)) (p : List Nat),
       p ∈ s.queue → p ≠ [] → jsTruthy (lookupA p s.cache) = false →
       oracle p = none →
       LabelEvent.updated p p false ∈ processLabelQueue oracle s)
    ∧ (∀ (s : IconState) (oracle : List Nat → Option (List Nat))
       (urlOf : List Nat → List Nat) (p : List Nat),
       p ∈ s.queue → p ≠ [] → jsTruthy (lookupA p s.labelCache) = true →
       jsTruthy (lookupA p s.iconCache) = false → oracle p = none →
       IconEvent.updated p [] false ∈ processIconQueue oracle urlOf s) := by
  constructor
  · intro s oracle p hmem hp hcache hfail
    exact runLabelQueue_fail_event oracle p hp hfail s.queue s.cache hmem hcache
  · intro s oracle urlOf p hmem hp hlabel hicon hfail
    exact runIconQueue_fail_event oracle urlOf p hp hfail s.queue s.labelCache
      s.iconCache hmem hlabel hicon

/-- C9 witness: both queue parts applied to concrete one-package states with
a failing extractor. -/
theorem C9_failure_still_updates_witness :
    LabelEvent.updated ("com.app".units) ("com.app".units) false
      ∈ processLabelQueue (fun _ => none) ⟨[], ["com.app".units], ["com.app".units]⟩
    ∧ IconEvent.updated ("com.app".units) [] false
      ∈ processIconQueue (fun _ => none) (fun u => u)
          ⟨[("com.app".units, "App".units)], [], ["com.app".units], ["com.app".units]⟩ :=
  ⟨C9_failure_still_updates.1 ⟨[], ["com.app".units], ["com.app".units]⟩
      (fun _ => none) ("com.app".units) (by simp) (by decide) (by decide) rfl,
   C9_failure_still_updates.2
      ⟨[("com.app".units, "App".units)], [], ["com.app".units], ["com.app".units]⟩
      (fun _ => none) (fun u => u) ("com.app".units)
      (by simp) (by decide) (by decide) (by decide) rfl⟩

/-- The acceptance shape asserted by C10, written from the claim's words:
a `#`-prefixed string of exactly 3, 4, 6, or 8 hex digits
(case-insensitive), with no provision for surrounding whitespace. Used only
to compare the claim against the implementation. -/
def claimColorShape (s : List Nat) : Bool :=
  match s with
  | 35 :: rest =>
      rest.all isHexDigitN
        ∧ (rest.length = 3 ∨ rest.length = 4 ∨ rest.length = 6 ∨ rest.length = 8)
  | _ => false

/-- C10 counterexample: the validator trims its input first, so the string
`" #abc"` (leading space) is accepted even though it is not a `#`-prefixed
hex string. -/
theorem C10_color_validator_counterexample :
    isColorValue (" #abc".units) = true ∧ claimColorShape (" #abc".units) = false := by
  decide

theorem jsLower_hex_lower {c : Nat} (h : isHexDigitN c = true) :
    isLowerHexN (jsLower c) = true := by
  simp [isHexDigitN] at h
  simp [isLowerHexN, jsLower]
  split_ifs <;> omega

theorem length_flatMap_pair (l : List Nat) :
    (l.flatMap (fun ch => [ch, ch])).length = 2 * l.length := by
  induction l with
  | nil => rfl
  | cons c cs ih =>
      simp [List.flatMap_cons, ih]
      omega

/-- C10 (amended): the validator accepts exactly the strings whose trimmed
form is a `#`-prefixed hex string of 3, 4, 6, or 8 hex digits
(case-insensitive); `normalizeHexColor` doubles each digit of the 3- and
4-digit shorthands and lowercases the rest, so every accepted input
normalizes to a lowercase `#`-prefixed hex color of exactly 6 or 8
digits. -/
theorem C10_color_validator_amended :
    (∀ s : List Nat, isColorValue s = true ↔
       ∃ rest, trimN s = 35 :: rest ∧ rest.all isHexDigitN = true
         ∧ (rest.length = 3 ∨ rest.length = 4 ∨ rest.length = 6 ∨ rest.length = 8))
    ∧ (∀ (s rest : List Nat), trimN s = 35 :: rest → isColorValue s = true →
       ((rest.length = 3 ∨ rest.length = 4) →
          normalizeHexColor s
            = some (35 :: (lowerN rest).flatMap (fun ch => [ch, ch])))
       ∧ ((rest.length = 6 ∨ rest.length = 8) →
          normalizeHexColor s = some (35 :: lowerN rest)))
    ∧ (∀ s : List Nat, isColorValue s = true →
       ∃ t, normalizeHexColor s = some t ∧ t.head? = some 35
         ∧ (t.drop 1).all isLowerHexN = true
         ∧ ((t.drop 1).length = 6 ∨ (t.drop 1).length = 8)) := by
  have hbase : ∀ s : List Nat, isColorValue s = true ↔
      ∃ rest, trimN s = 35 :: rest ∧ rest.all isHexDigitN = true
        ∧ (rest.length = 3 ∨ rest.length = 4 ∨ rest.length = 6 ∨ rest.length = 8) := by
    intro s
    unfold isColorValue
    by_cases hs : s = []
    · subst hs
      simp [trimN]
    · rw [if_neg hs]
      constructor
      · intro h
        split at h
        · next rest heq =>
            refine ⟨rest, heq, ?_⟩
            simp [List.all_eq_true] at h ⊢
            tauto
        · exact absurd h (by simp)
      · rintro ⟨rest, heq, hall, hlen⟩
        rw [heq]
        simp [hall]
        tauto
  have hnorm : ∀ (s rest : List Nat), trimN s = 35 :: rest → isColorValue s = true →
      ((rest.length = 3 ∨ rest.length = 4) →
         normalizeHexColor s
           = some (35 :: (lowerN rest).flatMap (fun ch => [ch, ch])))
      ∧ ((rest.length = 6 ∨ rest.length = 8) →
         normalizeHexColor s = some (35 :: lowerN rest)) := by
    intro s rest heq hcv
    unfold normalizeHexColor
    rw [if_neg (by simp [hcv])]
    simp only [heq, List.drop_succ_cons, List.drop_zero]
    constructor
    · rintro (h3 | h4)
      · rw [if_pos (by simp [lowerN, h3])]
      · rw [if_neg (by simp [lowerN, h4]), if_pos (by simp [lowerN, h4])]
    · rintro (h6 | h8)
      · rw [if_neg (by simp [lowerN, h6]), if_neg (by simp [lowerN, h6])]
      · rw [if_neg (by simp [lowerN, h8]), if_neg (by simp [lowerN, h8])]
  refine ⟨hbase, hnorm, ?_⟩
  intro s hcv
  obtain ⟨rest, heq, hall, hlen⟩ := (hbase s).mp hcv
  have hallLower : (lowerN rest).all isLowerHexN = true := by
    rw [List.all_eq_true]
    intro x hx
    rw [lowerN, List.mem_map] at hx
    obtain ⟨c, hc, rfl⟩ := hx
    exact jsLower_hex_lower (by rw [List.all_eq_true] at hall; exact hall c hc)
  have hlenLower : (lowerN rest).length = rest.length := by simp [lowerN]
  rcases hlen with h3 | h4 | h6 | h8
  · refine ⟨35 :: (lowerN rest).flatMap (fun ch => [ch, ch]),
      ((hnorm s rest heq hcv).1 (Or.inl h3)), rfl, ?_, ?_⟩
    · rw [List.all_eq_true]
      intro x hx
      simp only [List.drop_succ_cons, List.drop_zero, List.mem_flatMap] at hx
      obtain ⟨c, hc, hx⟩ := hx
      simp at hx
      subst hx
      rw [List.all_eq_true] at hallLower
      exact hallLower _ hc
    · left
      simp only [List.drop_succ_cons, List.drop_zero]
      rw [length_flatMap_pair, hlenLower, h3]
  · refine ⟨35 :: (lowerN rest).flatMap (fun ch => [ch, ch]),
      ((hnorm s rest heq hcv).1 (Or.inr h4)), rfl, ?_, ?_⟩
    · rw [List.all_eq_true]
      intro x hx
      simp only [List.drop_succ_cons, List.drop_zero, List.mem_flatMap] at hx
      obtain ⟨c, hc, hx⟩ := hx
      simp at hx
      subst hx
      rw [List.all_eq_true] at hallLower
      exact hallLower _ hc
    · right
      simp only [List.drop_succ_cons, List.drop_zero]
      rw [length_flatMap_pair, hlenLower, h4]
  · exact ⟨35 :: lowerN rest, (hnorm s rest heq hcv).2 (Or.inl h6), rfl,
      by simpa using hallLower, Or.inl (by simpa [hlenLower] using h6)⟩
  · exact ⟨35 :: lowerN rest, (hnorm s rest heq hcv).2 (Or.inr h8), rfl,
      by simpa using hallLower, Or.inr (by simpa [hlenLower] using h8)⟩

/-- C10 witness: the amended shorthand-expansion case applied to `#AbC`,
which normalizes to `#aabbcc`. -/
theorem C10_color_validator_amended_witness :
    normalizeHexColor ("#AbC".units) = some ("#aabbcc".units) :=
  (((C10_color_validator_amended.2.1 ("#AbC".units) ("AbC".units) (by decide)
      (by decide)).1 (Or.inl (by decide))).trans (by decide))
